import Mathlib

/-!
Verification of the mailroom interaction shell (`mailroom_peewee.py`) and the
spec-described donor-ledger core.  User-visible strings are modelled as Lean
`String`s; the character-level operations of Python (`strip`, `lower`,
`split`, `title`, `join`, numeric parsing) are embedded as functions on
`List Char`.  Monetary amounts (Python floats) are modelled as rationals.
Interactive `input()` calls are modelled by consuming a `List String` of
pending user inputs; a loop that would hit end-of-stream (an `EOFError`
crash in Python) is modelled by a distinguished `exhausted`/`none` outcome.
-/

/-! ## Embedded Python string primitives -/

/-- Python `str.strip()`: drop leading and trailing whitespace. -/
def pyStrip (l : List Char) : List Char :=
  ((l.dropWhile Char.isWhitespace).reverse.dropWhile Char.isWhitespace).reverse

/-- Python `str.lower()` (ASCII fragment, matching `Char.toLower`). -/
def pyLower (l : List Char) : List Char := l.map Char.toLower

/-- Helper for `pySplit`: accumulates the current word (reversed) while
scanning. -/
def pySplitAux : List Char → List Char → List (List Char)
  | [], acc => if acc.isEmpty then [] else [acc.reverse]
  | c :: cs, acc =>
    if c.isWhitespace then
      if acc.isEmpty then pySplitAux cs [] else acc.reverse :: pySplitAux cs []
    else pySplitAux cs (c :: acc)

/-- Python `str.split()` with no argument: split on runs of whitespace,
dropping empty pieces. -/
def pySplit (l : List Char) : List (List Char) := pySplitAux l []

/-- Helper for `pyTitle`: the flag records whether the previous character was
alphabetic. -/
def pyTitleAux : Bool → List Char → List Char
  | _, [] => []
  | prevAlpha, c :: t =>
    (if c.isAlpha then (if prevAlpha then c.toLower else c.toUpper) else c) ::
      pyTitleAux c.isAlpha t

/-- Python `str.title()` (ASCII fragment): upper-case each alphabetic
character that follows a non-alphabetic one, lower-case the rest. -/
def pyTitle (l : List Char) : List Char := pyTitleAux false l

/-- Python `" ".join(ws)`. -/
def joinSpace : List (List Char) → List Char
  | [] => []
  | [w] => w
  | w :: x :: xs => w ++ ' ' :: joinSpace (x :: xs)

/-- The donor-name normalisation of `prompt_for_donor` applied to an already
stripped and lower-cased input: `" ".join(name.title() for name in s.split())`. -/
def normChars (u : List Char) : List Char := joinSpace ((pySplit u).map pyTitle)

/-! ## Embedded numeric parsing -/

/-- Numeric value of a digit string (most significant first). -/
def digitsVal (l : List Char) : ℕ := l.foldl (fun a c => 10 * a + (c.toNat - 48)) 0

/-- Mantissa value `int part . fractional part` as a rational. -/
def mantissa (ip fp : List Char) : ℚ :=
  (digitsVal ip : ℚ) + (digitsVal fp : ℚ) / (10 : ℚ) ^ fp.length

/-- Split an optional leading sign off a character list. -/
def signSplit (l : List Char) : ℤ × List Char :=
  match l with
  | [] => (1, [])
  | c :: t => if c = '+' then (1, t) else if c = '-' then (-1, t) else (1, l)

/-- Exponent suffix of a Python float literal: optional sign then at least
one digit, consuming the whole rest of the string. -/
def pyFloatExp (sgn : ℚ) (ip fp : List Char) (t : List Char) : Option ℚ :=
  let p := signSplit t
  let ed := p.2.takeWhile Char.isDigit
  let r := p.2.dropWhile Char.isDigit
  if ed.isEmpty || !r.isEmpty then none
  else some (sgn * mantissa ip fp * (10 : ℚ) ^ (p.1 * (digitsVal ed : ℤ)))

/-- Python `float(s)` on an already stripped, lower-cased string, restricted
to finite decimal literals (`[+-]digits[.digits][e[+-]digits]`); the exotic
`inf`/`nan` spellings and digit-group underscores are outside the model. -/
def pyFloat (l : List Char) : Option ℚ :=
  let p := signSplit l
  let sgn : ℚ := (p.1 : ℚ)
  let ip := p.2.takeWhile Char.isDigit
  let r1 := p.2.dropWhile Char.isDigit
  match r1 with
  | [] => if ip.isEmpty then none else some (sgn * mantissa ip [])
  | c :: t =>
    if c = '.' then
      let fp := t.takeWhile Char.isDigit
      let r2 := t.dropWhile Char.isDigit
      if ip.isEmpty && fp.isEmpty then none
      else
        match r2 with
        | [] => some (sgn * mantissa ip fp)
        | c2 :: t2 => if c2 = 'e' then pyFloatExp sgn ip fp t2 else none
    else if c = 'e' then
      if ip.isEmpty then none else pyFloatExp sgn ip [] t
    else none

/-- Python `int(s)`: strips whitespace, optional sign, then at least one
digit consuming the whole string (digit-group underscores outside the model). -/
def pyInt (l : List Char) : Option ℤ :=
  let p := signSplit (pyStrip l)
  if p.2.isEmpty || !p.2.all Char.isDigit then none
  else some (p.1 * (digitsVal p.2 : ℤ))

/-! ## Interaction shell (`mailroom_peewee.py`)

Each interactive function consumes pending user inputs from a `List String`.
Running out of inputs while a prompt loop still wants more models the
`EOFError` crash Python's `input()` raises on a closed stdin. -/

/-- The stripped, lower-cased form of one user input, as computed at the top
of the prompt loops (`input(prompt).strip().lower()`). -/
def stripLower (s : String) : List Char := pyLower (pyStrip s.toList)

/-- Outcome of `prompt_for_donor`. -/
inductive DonorResult where
  | exhausted : DonorResult
  | quit : DonorResult
  | name (d : String) : DonorResult
deriving DecidableEq, Repr

/-- Outcome of `prompt_for_float`. -/
inductive FloatResult where
  | exhausted : FloatResult
  | quit : FloatResult
  | value (v : ℚ) : FloatResult
deriving DecidableEq, Repr

/-- `prompt_for_donor` of the source: loop reading inputs; an input starting
with `q` quits (returning Python `None`), the input `list` only prints and
re-prompts, otherwise the normalised title-cased name is built and, if
non-empty, returned.  Also yields the unconsumed rest of the input stream. -/
def prompt_for_donor : List String → DonorResult × List String
  | [] => (.exhausted, [])
  | s :: rest =>
    let u := stripLower s
    if u.head? = some 'q' then (.quit, rest)
    else if u = "list".toList then prompt_for_donor rest
    else
      let d := normChars u
      if d.isEmpty then prompt_for_donor rest else (.name (String.mk d), rest)

/-- `prompt_for_float` of the source: loop reading inputs; an input starting
with `q` quits (returning Python `None`), an input `float()` accepts ends the
loop with that value (zero included, since `val != 0.0` then fails), and a
`ValueError` prints the error prompt and re-prompts. -/
def prompt_for_float : List String → FloatResult × List String
  | [] => (.exhausted, [])
  | s :: rest =>
    let u := stripLower s
    if u.head? = some 'q' then (.quit, rest)
    else
      match pyFloat u with
      | some v => (.value v, rest)
      | none => prompt_for_float rest

/-- A persistent-layer operation performed by the thank-you flow. -/
inductive DbOp where
  | addDonor (name : String) : DbOp
  | addDonation (name : String) (amount : ℚ) : DbOp
deriving DecidableEq, Repr

/-- `send_thank_you` of the source, abstracted to the sequence of database
operations it performs: `none` models a crash (input stream exhausted inside
a prompt loop); `some ops` models a normal return having performed `ops`.
The guards mirror `if not donor: return` and `if not donation: return`. -/
def send_thank_you (inputs : List String) : Option (List DbOp) :=
  match prompt_for_donor inputs with
  | (.exhausted, _) => none
  | (.quit, _) => some []
  | (.name d, rest) =>
    match prompt_for_float rest with
    | (.exhausted, _) => none
    | (.quit, _) => some []
    | (.value v, _) =>
      if v = 0 then some []
      else some [.addDonor d, .addDonation d v]

/-! ## Donor ledger core (modelled from the spec)

`DonorDict` and `database_ops` are collaborators of the shell whose code is
not part of this repository snapshot; the definitions below are modelled
from the specification. -/

/-- The in-memory ledger: donor name keys paired with their ordered donation
amounts. -/
abbrev Ledger : Type := List (String × List ℚ)

/-- A donor's total: the sum of the donation amounts. -/
def donorTotal (p : String × List ℚ) : ℚ := p.2.sum

/-- Modelled from the spec: whether a donor total is excluded from scaling in
`DonorDict.projection` — `min_total`/`max_total` bound violated, where an
absent or zero bound means "no bound". -/
def projExcluded (t : ℚ) (mn mx : Option ℚ) : Bool :=
  (match mn with
   | none => false
   | some m => decide (m ≠ 0) && decide (t < m)) ||
  (match mx with
   | none => false
   | some m => decide (m ≠ 0) && decide (m < t))

/-- Modelled from the spec: `DonorDict.projection` (not in the repository
snapshot) — scale each in-bounds donor total by `factor`, keep out-of-bounds
totals unscaled, and sum. -/
def projection (L : Ledger) (factor : ℚ) (mn mx : Option ℚ) : ℚ :=
  (L.map fun p => if projExcluded (donorTotal p) mn mx then donorTotal p
                  else factor * donorTotal p).sum

/-- Modelled from the spec: `database_ops.add_donor` (not in the repository
snapshot) — idempotent create: a name whose key already exists is reused,
otherwise a fresh donor with an empty history is appended. -/
def add_donor (name : String) (L : Ledger) : Ledger :=
  if L.any (fun p => p.1 == name) then L else L ++ [(name, [])]

/-- Modelled from the spec: the report ordering — Total Given descending,
ties broken by donor name key ascending. -/
def reportRel (a b : String × List ℚ) : Prop :=
  donorTotal b < donorTotal a ∨ (donorTotal a = donorTotal b ∧ a.1 ≤ b.1)

instance : DecidableRel reportRel := fun a b => by
  unfold reportRel; infer_instance

instance : IsTotal (String × List ℚ) reportRel where
  total a b := by
    unfold reportRel
    rcases lt_trichotomy (donorTotal a) (donorTotal b) with h | h | h
    · exact Or.inr (Or.inl h)
    · rcases le_total a.1 b.1 with hs | hs
      · exact Or.inl (Or.inr ⟨h, hs⟩)
      · exact Or.inr (Or.inr ⟨h.symm, hs⟩)
    · exact Or.inl (Or.inl h)

instance : IsTrans (String × List ℚ) reportRel where
  trans a b c hab hbc := by
    unfold reportRel at hab hbc ⊢
    rcases hab with h1 | ⟨h1, h1s⟩
    · rcases hbc with h2 | ⟨h2, _⟩
      · exact Or.inl (h2.trans h1)
      · exact Or.inl (h2 ▸ h1)
    · rcases hbc with h2 | ⟨h2, h2s⟩
      · exact Or.inl (h1 ▸ h2)
      · exact Or.inr ⟨h1.trans h2, le_trans h1s h2s⟩

/-- Modelled from the spec: the data rows of `DonorDict.create_report` (not
in the repository snapshot) — the donors sorted by the report ordering. -/
def create_report_rows (L : Ledger) : Ledger := List.insertionSort reportRel L

/-! ## Menu dispatch (`get_usr_input` and `main`) -/

/-- `PROMPT_OPTS` of the source. -/
def PROMPT_OPTS : List ℤ := [1, 2, 3, 4, 5]

/-- `get_usr_input` of the source: keep reading until `int(input(...))`
parses to a member of `PROMPT_OPTS`; `none` models exhausting the input
stream while still looping. -/
def get_usr_input : List String → Option ℤ
  | [] => none
  | s :: rest =>
    match pyInt s.toList with
    | some n => if n ∈ PROMPT_OPTS then some n else get_usr_input rest
    | none => get_usr_input rest

/-- The five menu handlers of `main`, as an abstract enumeration. -/
inductive Handler where
  | sendThankYou | createReport | sendLetters | createProjection | quitMailroom
deriving DecidableEq, Repr

/-- `opt_dict` of `main`: `dict(zip(PROMPT_OPTS, (...)))`. -/
def opt_dict : List (ℤ × Handler) :=
  PROMPT_OPTS.zip
    [.sendThankYou, .createReport, .sendLetters, .createProjection, .quitMailroom]

/-- `opt_dict.get(choice)` of the main loop. -/
def opt_dict_get (k : ℤ) : Option Handler := opt_dict.lookup k

/-! ## The projection flow (`create_projection`) -/

/-- The Python value returned by `prompt_for_float` (`None` on quit). -/
def floatResultToOption : FloatResult → Option ℚ
  | .exhausted => none
  | .quit => none
  | .value v => some v

/-- Outcome of one run of `create_projection`, recording the arguments the
projection engine was invoked with. -/
inductive ProjOutcome where
  | crashed : ProjOutcome
  | aborted : ProjOutcome
  | projected (factor : ℚ) (mn mx : Option ℚ) (result : ℚ) : ProjOutcome
deriving DecidableEq, Repr

/-- `create_projection` of the source: prompt for the factor (`if not
factor: return` guards quit and zero), prompt for the optional min and max
bounds, then call the projection engine. -/
def create_projection (L : Ledger) (inputs : List String) : ProjOutcome :=
  match prompt_for_float inputs with
  | (.exhausted, _) => .crashed
  | (.quit, _) => .aborted
  | (.value f, r1) =>
    if f = 0 then .aborted
    else
      match prompt_for_float r1 with
      | (.exhausted, _) => .crashed
      | mres =>
        match prompt_for_float mres.2 with
        | (.exhausted, _) => .crashed
        | xres =>
          let mn := floatResultToOption mres.1
          let mx := floatResultToOption xres.1
          .projected f mn mx (projection L f mn mx)

/-! ## Normalised-key well-formedness predicates -/

/-- A word contains no whitespace. -/
def wsFree (w : List Char) : Prop := ∀ c ∈ w, c.isWhitespace = false

/-- The first character of a word, if alphabetic, is upper-case. -/
def headCapOk (w : List Char) : Prop :=
  ∀ c, w.head? = some c → c.isAlpha = true → c.isUpper = true

/-- Scanner for well-formed normalised keys; the flag records whether the
scanner is at the start of a word.  It checks that the only whitespace is a
single space between words, that no space leads or trails, and that each
word's first character, if alphabetic, is upper-case. -/
def keyScan : Bool → List Char → Bool
  | _, [] => true
  | atStart, c :: t =>
    if c = ' ' then !atStart && !t.isEmpty && keyScan true t
    else !c.isWhitespace && (!(atStart && c.isAlpha) || c.isUpper) && keyScan false t

/-- A well-formed normalised donor key. -/
def goodKey (l : List Char) : Bool := keyScan true l

/-! ## Character-level facts about `Char.toUpper` / `Char.toLower` -/

/-- Two characters are equal iff their code points agree. -/
theorem char_eq_iff_toNat {c d : Char} : c = d ↔ c.toNat = d.toNat := by
  constructor
  · intro h; rw [h]
  · intro h
    apply Char.ext
    apply UInt32.eq_of_toBitVec_eq
    apply BitVec.eq_of_toNat_eq
    simpa [Char.toNat, UInt32.toNat] using h

/-- `Char.isWhitespace` recognises exactly space, tab, carriage return, newline. -/
theorem isWhitespace_iff (c : Char) :
    c.isWhitespace = true ↔ c.toNat = 32 ∨ c.toNat = 9 ∨ c.toNat = 13 ∨ c.toNat = 10 := by
  have w1 : (' ').toNat = 32 := by decide
  have w2 : ('\t').toNat = 9 := by decide
  have w3 : ('\r').toNat = 13 := by decide
  have w4 : ('\n').toNat = 10 := by decide
  simp only [Char.isWhitespace, Bool.or_eq_true, decide_eq_true_eq, char_eq_iff_toNat,
    w1, w2, w3, w4]
  tauto

/-- `Char.isUpper` as a code-point range. -/
theorem isUpper_iff (c : Char) : c.isUpper = true ↔ 65 ≤ c.toNat ∧ c.toNat ≤ 90 := by
  have h1 : ((65 : UInt32) ≤ c.val) ↔ 65 ≤ c.toNat := by
    rw [UInt32.le_def, BitVec.le_def]; simp [Char.toNat, UInt32.toNat]
  have h2 : (c.val ≤ (90 : UInt32)) ↔ c.toNat ≤ 90 := by
    rw [UInt32.le_def, BitVec.le_def]; simp [Char.toNat, UInt32.toNat]
  simp [Char.isUpper, GE.ge, h1, h2]

/-- `Char.isLower` as a code-point range. -/
theorem isLower_iff (c : Char) : c.isLower = true ↔ 97 ≤ c.toNat ∧ c.toNat ≤ 122 := by
  have h1 : ((97 : UInt32) ≤ c.val) ↔ 97 ≤ c.toNat := by
    rw [UInt32.le_def, BitVec.le_def]; simp [Char.toNat, UInt32.toNat]
  have h2 : (c.val ≤ (122 : UInt32)) ↔ c.toNat ≤ 122 := by
    rw [UInt32.le_def, BitVec.le_def]; simp [Char.toNat, UInt32.toNat]
  simp [Char.isLower, GE.ge, h1, h2]

/-- `Char.ofNat` is faithful on the ASCII letter range. -/
theorem toNat_ofNat_valid {n : Nat} (h1 : 65 ≤ n) (h2 : n ≤ 122) : (Char.ofNat n).toNat = n := by
  have hv : n.isValidChar := Or.inl (by omega)
  simp [Char.ofNat, hv, Char.ofNatAux, Char.toNat, UInt32.toNat, BitVec.toNat_ofNatLt]

/-- Code point of `Char.toUpper`. -/
theorem toUpper_toNat (c : Char) :
    (c.toUpper).toNat = if 97 ≤ c.toNat ∧ c.toNat ≤ 122 then c.toNat - 32 else c.toNat := by
  show (if c.toNat ≥ 97 ∧ c.toNat ≤ 122 then Char.ofNat (c.toNat - 32) else c).toNat = _
  by_cases h : 97 ≤ c.toNat ∧ c.toNat ≤ 122
  · rw [if_pos h, if_pos h]
    exact toNat_ofNat_valid (by omega) (by omega)
  · rw [if_neg h, if_neg h]

/-- Code point of `Char.toLower`. -/
theorem toLower_toNat (c : Char) :
    (c.toLower).toNat = if 65 ≤ c.toNat ∧ c.toNat ≤ 90 then c.toNat + 32 else c.toNat := by
  show (if c.toNat ≥ 65 ∧ c.toNat ≤ 90 then Char.ofNat (c.toNat + 32) else c).toNat = _
  by_cases h : 65 ≤ c.toNat ∧ c.toNat ≤ 90
  · rw [if_pos h, if_pos h]
    exact toNat_ofNat_valid (by omega) (by omega)
  · rw [if_neg h, if_neg h]

/-- Upper-casing an alphabetic character yields an upper-case character. -/
theorem isUpper_toUpper {c : Char} (h : c.isAlpha = true) : (c.toUpper).isUpper = true := by
  simp only [Char.isAlpha, Bool.or_eq_true, isUpper_iff, isLower_iff] at h ⊢
  rw [toUpper_toNat]
  split <;> omega

/-- Upper-casing preserves non-whitespace. -/
theorem toUpper_not_whitespace {c : Char} (h : c.isWhitespace = false) :
    (c.toUpper).isWhitespace = false := by
  rw [Bool.eq_false_iff, Ne, isWhitespace_iff] at h ⊢
  rw [toUpper_toNat]
  split <;> omega

/-- Lower-casing preserves non-whitespace. -/
theorem toLower_not_whitespace {c : Char} (h : c.isWhitespace = false) :
    (c.toLower).isWhitespace = false := by
  rw [Bool.eq_false_iff, Ne, isWhitespace_iff] at h ⊢
  rw [toLower_toNat]
  split <;> omega

/-- Lower-casing never produces the capital letter `Q`. -/
theorem toLower_ne_Q (c : Char) : c.toLower ≠ 'Q' := by
  rw [Ne, char_eq_iff_toNat, toLower_toNat]
  have hQ : ('Q').toNat = 81 := by decide
  rw [hQ]
  split <;> omega

/-- Only `q` and `Q` upper-case to `Q`. -/
theorem toUpper_eq_Q {c : Char} (h : c.toUpper = 'Q') : c = 'q' ∨ c = 'Q' := by
  rw [char_eq_iff_toNat, toUpper_toNat] at h
  rw [char_eq_iff_toNat, char_eq_iff_toNat]
  have hq : ('q').toNat = 113 := by decide
  have hQ : ('Q').toNat = 81 := by decide
  rw [hq, hQ]
  rw [hQ] at h
  revert h
  split <;> omega

/-! ## Helper lemmas -/

theorem string_toList_mk (l : List Char) : (String.mk l).toList = l := rfl

theorem pySplitAux_words : ∀ (l acc : List Char), wsFree acc →
    ∀ w ∈ pySplitAux l acc, w ≠ [] ∧ wsFree w := by
  intro l
  induction l with
  | nil =>
    intro acc hacc w hw
    rw [pySplitAux] at hw
    by_cases ha : acc.isEmpty
    · rw [if_pos ha] at hw; simp at hw
    · rw [if_neg ha] at hw
      simp only [List.mem_singleton] at hw
      subst hw
      refine ⟨by simpa [List.isEmpty_iff] using ha, ?_⟩
      intro c hc
      exact hacc c (List.mem_reverse.mp hc)
  | cons c cs ih =>
    intro acc hacc w hw
    rw [pySplitAux] at hw
    by_cases hws : c.isWhitespace
    · rw [if_pos hws] at hw
      by_cases ha : acc.isEmpty
      · rw [if_pos ha] at hw
        exact ih [] (by intro x hx; simp at hx) w hw
      · rw [if_neg ha] at hw
        rcases List.mem_cons.mp hw with rfl | hw
        · refine ⟨by simpa [List.isEmpty_iff] using ha, ?_⟩
          intro x hx
          exact hacc x (List.mem_reverse.mp hx)
        · exact ih [] (by intro x hx; simp at hx) w hw
    · rw [if_neg hws] at hw
      refine ih (c :: acc) ?_ w hw
      intro x hx
      rcases List.mem_cons.mp hx with rfl | hx
      · simpa using hws
      · exact hacc x hx

theorem pyTitleAux_wsFree : ∀ (w : List Char) (b : Bool), wsFree w →
    wsFree (pyTitleAux b w) := by
  intro w
  induction w with
  | nil => intro b _; intro c hc; simp [pyTitleAux] at hc
  | cons c t ih =>
    intro b hw x hx
    rw [pyTitleAux] at hx
    rcases List.mem_cons.mp hx with rfl | hx
    · have hc : c.isWhitespace = false := hw c (by simp)
      by_cases ha : c.isAlpha
      · simp only [ha, if_true]
        by_cases hb : b = true
        · simp only [hb, if_true]
          exact toLower_not_whitespace hc
        · simp only [Bool.not_eq_true] at hb
          simp only [hb, Bool.false_eq_true, if_false]
          exact toUpper_not_whitespace hc
      · simp only [ha, if_false]
        exact hc
    · exact ih c.isAlpha (fun y hy => hw y (by simp [hy])) x hx

theorem pyTitleAux_ne_nil {w : List Char} (h : w ≠ []) (b : Bool) : pyTitleAux b w ≠ [] := by
  cases w with
  | nil => exact absurd rfl h
  | cons c t => rw [pyTitleAux]; exact List.cons_ne_nil _ _

theorem pyTitle_headCapOk (w : List Char) : headCapOk (pyTitle w) := by
  intro c hc ha
  cases w with
  | nil => simp [pyTitle, pyTitleAux] at hc
  | cons c0 t =>
    rw [pyTitle, pyTitleAux] at hc
    simp only [List.head?_cons, Option.some_inj] at hc
    by_cases h0 : c0.isAlpha
    · rw [if_pos h0] at hc
      simp only [Bool.false_eq_true, if_false] at hc
      subst hc
      exact isUpper_toUpper h0
    · rw [if_neg h0] at hc
      subst hc
      exact absurd ha (by simpa using h0)

theorem keyScan_word_inner : ∀ (w : List Char), wsFree w →
    ∀ r, keyScan false (w ++ r) = keyScan false r := by
  intro w
  induction w with
  | nil => intro _ r; rfl
  | cons c t ih =>
    intro hw r
    have hc : c.isWhitespace = false := hw c (by simp)
    have hcs : ¬c = ' ' := by
      intro h; subst h; simp at hc
    rw [List.cons_append, keyScan, if_neg hcs]
    simp only [hc, Bool.not_false, Bool.false_and, Bool.not_false, Bool.true_or,
      Bool.true_and, Bool.and_eq_true]
    have := ih (fun y hy => hw y (by simp [hy])) r
    simp only [Bool.not_true, Bool.false_or] at this ⊢
    rw [this]

theorem keyScan_word : ∀ (w : List Char), wsFree w → w ≠ [] → headCapOk w →
    ∀ r, keyScan true (w ++ r) = keyScan false r := by
  intro w hw hne hcap r
  cases w with
  | nil => exact absurd rfl hne
  | cons c t =>
    have hc : c.isWhitespace = false := hw c (by simp)
    have hcs : ¬c = ' ' := by
      intro h; subst h; simp at hc
    rw [List.cons_append, keyScan, if_neg hcs]
    have hcap2 : (!(true && c.isAlpha) || c.isUpper) = true := by
      by_cases ha : c.isAlpha
      · simp only [ha, Bool.true_and, Bool.not_true, Bool.false_or]
        exact hcap c (by simp) ha
      · simp only [Bool.not_eq_true] at ha
        simp [ha]
    rw [hcap2]
    simp only [hc, Bool.not_false, Bool.true_and]
    exact keyScan_word_inner t (fun y hy => hw y (by simp [hy])) r

theorem joinSpace_ne_nil {w : List Char} (hne : w ≠ []) (ws : List (List Char)) :
    joinSpace (w :: ws) ≠ [] := by
  cases ws with
  | nil => rw [joinSpace]; exact hne
  | cons x xs =>
    rw [joinSpace]
    intro h
    exact hne (List.append_eq_nil.mp h).1

theorem keyScan_joinSpace : ∀ (ws : List (List Char)),
    (∀ w ∈ ws, w ≠ [] ∧ wsFree w ∧ headCapOk w) → keyScan true (joinSpace ws) = true := by
  intro ws
  induction ws with
  | nil => intro _; rfl
  | cons w rest ih =>
    intro hws
    obtain ⟨hne, hfree, hcap⟩ := hws w (by simp)
    cases rest with
    | nil =>
      rw [joinSpace]
      have := keyScan_word w hfree hne hcap []
      simpa [List.append_nil] using this
    | cons x xs =>
      rw [joinSpace]
      rw [keyScan_word w hfree hne hcap _]
      rw [keyScan]
      rw [if_pos rfl]
      have hx : joinSpace (x :: xs) ≠ [] := by
        obtain ⟨hxne, _, _⟩ := hws x (by simp)
        exact joinSpace_ne_nil hxne xs
      have hxe : (joinSpace (x :: xs)).isEmpty = false := by
        simpa [List.isEmpty_iff] using hx
      rw [hxe]
      simp only [Bool.not_true, Bool.not_false, Bool.true_and]
      exact ih (fun y hy => hws y (by simp [hy]))

theorem goodKey_normChars (u : List Char) : goodKey (normChars u) = true := by
  rw [goodKey, normChars]
  apply keyScan_joinSpace
  intro w hw
  simp only [List.mem_map] at hw
  obtain ⟨w0, hw0, rfl⟩ := hw
  obtain ⟨hne, hfree⟩ := pySplitAux_words u [] (by intro c hc; simp at hc) w0 hw0
  exact ⟨pyTitleAux_ne_nil hne false, pyTitleAux_wsFree w0 false hfree, pyTitle_headCapOk w0⟩

theorem head_dropWhile_false (p : Char → Bool) (l : List Char) (c : Char)
    (h : (l.dropWhile p).head? = some c) : p c = false := by
  have hm := List.head?_dropWhile_not p l
  rw [h] at hm
  exact hm

theorem pyStrip_head (l : List Char) (c : Char) (h : (pyStrip l).head? = some c) :
    c.isWhitespace = false := by
  rw [pyStrip] at h
  obtain ⟨t, ht⟩ :=
    List.dropWhile_suffix (l := (l.dropWhile Char.isWhitespace).reverse) Char.isWhitespace
  have hm2 : l.dropWhile Char.isWhitespace =
      ((l.dropWhile Char.isWhitespace).reverse.dropWhile Char.isWhitespace).reverse ++
        t.reverse := by
    have h2 := congrArg List.reverse ht
    simpa [List.reverse_append] using h2.symm
  have hne :
      ((l.dropWhile Char.isWhitespace).reverse.dropWhile Char.isWhitespace).reverse ≠ [] := by
    intro hnil
    rw [hnil] at h
    simp at h
  have hhead : (l.dropWhile Char.isWhitespace).head? = some c := by
    rw [hm2, List.head?_append_of_ne_nil _ hne, h]
  exact head_dropWhile_false _ l c hhead

theorem stripLower_head (s : String) (c : Char) (h : (stripLower s).head? = some c) :
    c.isWhitespace = false ∧ c ≠ 'Q' := by
  rw [stripLower, pyLower, List.head?_map] at h
  cases hh : (pyStrip s.toList).head? with
  | none => rw [hh] at h; simp at h
  | some c0 =>
    rw [hh] at h
    simp only [Option.map_some', Option.some_inj] at h
    subst h
    exact ⟨toLower_not_whitespace (pyStrip_head _ _ hh), toLower_ne_Q c0⟩

theorem pySplitAux_head : ∀ (l acc : List Char), acc ≠ [] →
    ∃ w ws', pySplitAux l acc = w :: ws' ∧ w.head? = acc.reverse.head? := by
  intro l
  induction l with
  | nil =>
    intro acc hacc
    rw [pySplitAux, if_neg (by simpa [List.isEmpty_iff] using hacc)]
    exact ⟨acc.reverse, [], rfl, rfl⟩
  | cons c cs ih =>
    intro acc hacc
    rw [pySplitAux]
    by_cases hws : c.isWhitespace
    · rw [if_pos hws, if_neg (by simpa [List.isEmpty_iff] using hacc)]
      exact ⟨acc.reverse, _, rfl, rfl⟩
    · rw [if_neg hws]
      obtain ⟨w, ws', hs, hh⟩ := ih (c :: acc) (by simp)
      refine ⟨w, ws', hs, ?_⟩
      rw [hh, List.reverse_cons,
        List.head?_append_of_ne_nil _ (by simpa using hacc)]

theorem joinSpace_head {w : List Char} (hne : w ≠ []) (ws : List (List Char)) :
    (joinSpace (w :: ws)).head? = w.head? := by
  cases ws with
  | nil => rw [joinSpace]
  | cons x xs =>
    rw [joinSpace]
    exact List.head?_append_of_ne_nil _ hne

theorem pyTitle_head_ne_Q {w : List Char} {c : Char} (hh : w.head? = some c)
    (hq : c ≠ 'q') (hQ : c ≠ 'Q') : (pyTitle w).head? ≠ some 'Q' := by
  cases w with
  | nil => simp at hh
  | cons c0 t =>
    simp only [List.head?_cons, Option.some_inj] at hh
    subst hh
    rw [pyTitle, pyTitleAux]
    simp only [List.head?_cons, Option.some_inj, Bool.false_eq_true, if_false]
    by_cases ha : c0.isAlpha
    · rw [if_pos ha]
      intro hQ2
      injection hQ2 with hQ2
      rcases toUpper_eq_Q hQ2 with rfl | rfl
      · exact hq rfl
      · exact hQ rfl
    · rw [if_neg ha]
      intro hQ2
      injection hQ2 with hQ2
      rw [hQ2] at ha
      exact ha (by decide)

theorem normChars_head_ne_Q (u : List Char) (hq : ¬u.head? = some 'q')
    (hws : ∀ c, u.head? = some c → c.isWhitespace = false ∧ c ≠ 'Q') :
    (normChars u).head? ≠ some 'Q' := by
  cases u with
  | nil => simp [normChars, pySplit, pySplitAux, joinSpace]
  | cons c t =>
    obtain ⟨hcw, hcQ⟩ := hws c (by simp)
    have hcq : c ≠ 'q' := by
      intro h; subst h; exact hq (by simp)
    rw [normChars, pySplit, pySplitAux, if_neg (by simp [hcw])]
    obtain ⟨w, ws', hs, hh⟩ := pySplitAux_head t [c] (by simp)
    rw [hs]
    simp only [List.map_cons]
    have hwne : w ≠ [] := by
      intro hnil
      rw [hnil] at hh
      simp at hh
    have htne : pyTitle w ≠ [] := pyTitleAux_ne_nil hwne false
    rw [joinSpace_head htne _]
    apply pyTitle_head_ne_Q (c := c) _ hcq hcQ
    rw [hh]
    simp

theorem prompt_for_donor_goodKey : ∀ (inputs : List String) (d : String) (rest : List String),
    prompt_for_donor inputs = (DonorResult.name d, rest) → goodKey d.toList = true := by
  intro inputs
  induction inputs with
  | nil => intro d rest h; simp [prompt_for_donor] at h
  | cons s tl ih =>
    intro d rest h
    rw [prompt_for_donor] at h
    by_cases hq : (stripLower s).head? = some 'q'
    · rw [if_pos hq] at h; simp at h
    · rw [if_neg hq] at h
      by_cases hl : stripLower s = "list".toList
      · rw [if_pos hl] at h; exact ih d rest h
      · rw [if_neg hl] at h
        simp only at h
        by_cases he : (normChars (stripLower s)).isEmpty
        · rw [if_pos he] at h; exact ih d rest h
        · rw [if_neg he] at h
          injection h with h1 h2
          injection h1 with h1
          subst h1
          rw [string_toList_mk]
          exact goodKey_normChars (stripLower s)

theorem add_donor_idem (L : Ledger) (n : String) :
    add_donor n (add_donor n L) = add_donor n L := by
  by_cases h : L.any (fun p => p.1 == n)
  · have hL : add_donor n L = L := by rw [add_donor, if_pos h]
    rw [hL, add_donor, if_pos h]
  · have hL : add_donor n L = L ++ [(n, [])] := by rw [add_donor, if_neg h]
    rw [hL, add_donor, if_pos (by simp [List.any_append])]

theorem prompt_for_donor_no_Q : ∀ (inputs : List String) (d : String) (rest : List String),
    prompt_for_donor inputs = (DonorResult.name d, rest) → d.toList.head? ≠ some 'Q' := by
  intro inputs
  induction inputs with
  | nil => intro d rest h; simp [prompt_for_donor] at h
  | cons s tl ih =>
    intro d rest h
    rw [prompt_for_donor] at h
    by_cases hq : (stripLower s).head? = some 'q'
    · rw [if_pos hq] at h; simp at h
    · rw [if_neg hq] at h
      by_cases hl : stripLower s = "list".toList
      · rw [if_pos hl] at h; exact ih d rest h
      · rw [if_neg hl] at h
        simp only at h
        by_cases he : (normChars (stripLower s)).isEmpty
        · rw [if_pos he] at h; exact ih d rest h
        · rw [if_neg he] at h
          injection h with h1 h2
          injection h1 with h1
          subst h1
          rw [string_toList_mk]
          exact normChars_head_ne_Q (stripLower s) hq (fun c hc => stripLower_head s c hc)

theorem send_thank_you_shape :
    ∀ (inputs : List String) (ops : List DbOp), send_thank_you inputs = some ops →
      ops = [] ∨ ∃ d v, v ≠ 0 ∧ ops = [DbOp.addDonor d, DbOp.addDonation d v] := by
  intro inputs ops h
  unfold send_thank_you at h
  cases hd : prompt_for_donor inputs with
  | mk dres rest1 =>
    rw [hd] at h
    cases dres with
    | exhausted => simp at h
    | quit => simp at h; exact Or.inl h
    | name d =>
      simp only at h
      cases hf : prompt_for_float rest1 with
      | mk fres rest2 =>
        rw [hf] at h
        cases fres with
        | exhausted => simp at h
        | quit => simp at h; exact Or.inl h
        | value v =>
          simp only at h
          by_cases hv : v = 0
          · rw [if_pos hv] at h
            injection h with h
            exact Or.inl h.symm
          · rw [if_neg hv] at h
            injection h with h
            exact Or.inr ⟨d, v, hv, h.symm⟩

/-! ## The claims -/

/-- C1 counterexample: the concrete run entering `-2` as the factor reaches the projection engine with the negative factor `-2`, so the factor passed is not always positive. -/
theorem create_projection_negative_factor :
    create_projection [] ["-2", "0", "0"] = ProjOutcome.projected (-2) (some 0) (some 0) 0 ∧
    ¬(0 : ℚ) < -2 := by
  constructor
  · simp +decide [create_projection, prompt_for_float, stripLower, pyStrip, pyLower,
      pyFloat, signSplit, mantissa, digitsVal, floatResultToOption, projection]
  · norm_num

/-- C1 (amended): in every run of the projection flow, the factor passed to the projection engine is nonzero and numeric — a zero or quit answer aborts the flow and a non-numeric answer is re-prompted — but negative factors are not rejected. -/
theorem create_projection_factor_nonzero (L : Ledger) (inputs : List String)
    (f : ℚ) (mn mx : Option ℚ) (r : ℚ)
    (h : create_projection L inputs = ProjOutcome.projected f mn mx r) : f ≠ 0 := by
  unfold create_projection at h
  cases h1 : prompt_for_float inputs with
  | mk res1 r1 =>
    rw [h1] at h
    cases res1 with
    | exhausted => simp at h
    | quit => simp at h
    | value g =>
      simp only at h
      by_cases hg : g = 0
      · rw [if_pos hg] at h; simp at h
      · rw [if_neg hg] at h
        cases h2 : prompt_for_float r1 with
        | mk res2 r2 =>
          rw [h2] at h
          cases res2 with
          | exhausted => simp at h
          | quit =>
            simp only at h
            cases h3 : prompt_for_float r2 with
            | mk res3 r3 =>
              rw [h3] at h
              cases res3 with
              | exhausted => simp at h
              | quit => simp only at h; injection h with hf; subst hf; exact hg
              | value w => simp only at h; injection h with hf; subst hf; exact hg
          | value m =>
            simp only at h
            cases h3 : prompt_for_float r2 with
            | mk res3 r3 =>
              rw [h3] at h
              cases res3 with
              | exhausted => simp at h
              | quit => simp only at h; injection h with hf; subst hf; exact hg
              | value w => simp only at h; injection h with hf; subst hf; exact hg

/-- Witness for the amended C1 at the concrete run entering factor `2`. -/
theorem create_projection_factor_nonzero_witness : (2 : ℚ) ≠ 0 :=
  create_projection_factor_nonzero [] ["2", "0", "0"] 2 (some 0) (some 0) 0 (by
    simp +decide [create_projection, prompt_for_float, stripLower, pyStrip, pyLower,
      pyFloat, signSplit, mantissa, digitsVal, floatResultToOption, projection])

/-- C2 counterexample: the thank-you flow accepts and records the donation amount `-5`, which is not strictly greater than zero. -/
theorem send_thank_you_negative_donation :
    send_thank_you ["bob", "-5"] = some [DbOp.addDonor "Bob", DbOp.addDonation "Bob" (-5)] ∧
    ¬(0 : ℚ) < -5 := by
  constructor
  · simp +decide [send_thank_you, prompt_for_donor, prompt_for_float, stripLower, pyStrip,
      pyLower, normChars, pySplit, pySplitAux, pyTitle, pyTitleAux, joinSpace, pyFloat,
      signSplit, mantissa, digitsVal]
  · norm_num

/-- C2 (amended): every donation amount recorded through the thank-you flow is nonzero — quit and `0.0` are rejected by the `if not donation` guard — but negative amounts are accepted. -/
theorem send_thank_you_amount_nonzero (inputs : List String) (ops : List DbOp)
    (n : String) (v : ℚ) (h1 : send_thank_you inputs = some ops)
    (h2 : DbOp.addDonation n v ∈ ops) : v ≠ 0 := by
  rcases send_thank_you_shape inputs ops h1 with rfl | ⟨d, w, hw, rfl⟩
  · simp at h2
  · simp only [List.mem_cons, List.mem_singleton] at h2
    rcases h2 with h2 | h2 | h2
    · exact absurd h2 (by simp)
    · injection h2 with _ h2v; rw [h2v]; exact hw
    · simp at h2

/-- Witness for the amended C2 at the concrete run recording `5`. -/
theorem send_thank_you_amount_nonzero_witness : (5 : ℚ) ≠ 0 :=
  send_thank_you_amount_nonzero ["bob", "5"]
    [DbOp.addDonor "Bob", DbOp.addDonation "Bob" 5] "Bob" 5
    (by simp +decide [send_thank_you, prompt_for_donor, prompt_for_float, stripLower, pyStrip,
      pyLower, normChars, pySplit, pySplitAux, pyTitle, pyTitleAux, joinSpace, pyFloat,
      signSplit, mantissa, digitsVal])
    (by simp)

/-- C3 counterexample: entering the bogus amount `abc` during the thank-you flow does not crash; the flow re-prompts and records the later valid amount `5`. -/
theorem send_thank_you_bogus_recovered :
    send_thank_you ["bob", "abc", "5"] = some [DbOp.addDonor "Bob", DbOp.addDonation "Bob" 5] ∧
    send_thank_you ["bob", "abc", "5"] ≠ none := by
  constructor
  · simp +decide [send_thank_you, prompt_for_donor, prompt_for_float, stripLower, pyStrip,
      pyLower, normChars, pySplit, pySplitAux, pyTitle, pyTitleAux, joinSpace, pyFloat,
      signSplit, mantissa, digitsVal]
  · simp +decide [send_thank_you, prompt_for_donor, prompt_for_float, stripLower, pyStrip,
      pyLower, normChars, pySplit, pySplitAux, pyTitle, pyTitleAux, joinSpace, pyFloat,
      signSplit, mantissa, digitsVal]

/-- C3 (amended): a non-numeric donation amount entered during the thank-you flow is caught by `prompt_for_float`, which prints the error prompt and re-prompts on the remaining input; the program does not crash. -/
theorem prompt_for_float_bad_input (s : String) (rest : List String)
    (hq : ¬(stripLower s).head? = some 'q') (hp : pyFloat (stripLower s) = none) :
    prompt_for_float (s :: rest) = prompt_for_float rest := by
  rw [prompt_for_float]
  simp only [if_neg hq, hp]

/-- Witness for the amended C3 at the bogus input `abc`. -/
theorem prompt_for_float_bad_input_witness :
    prompt_for_float ["abc", "5"] = prompt_for_float ["5"] :=
  prompt_for_float_bad_input "abc" ["5"] (by decide) (by decide)

/-- C4: every donor key produced by `prompt_for_donor` is a normalised display name (each whitespace-separated word capitalised, whitespace collapsed to single inner spaces, no stray whitespace); the spellings `jane doe` and `Jane   Doe` normalise to the same key `Jane Doe`; and `add_donor` is an idempotent create, so adding a donor twice with names normalising to the same key yields exactly one donor entry. -/
theorem donor_identity_normalized :
    (∀ (inputs : List String) (d : String) (rest : List String),
        prompt_for_donor inputs = (DonorResult.name d, rest) → goodKey d.toList = true) ∧
    prompt_for_donor ["jane doe"] = (DonorResult.name "Jane Doe", []) ∧
    prompt_for_donor ["Jane   Doe"] = (DonorResult.name "Jane Doe", []) ∧
    (∀ (L : Ledger) (n : String), add_donor n (add_donor n L) = add_donor n L) ∧
    (List.filter (fun p => p.1 == "Jane Doe")
        (add_donor "Jane Doe" (add_donor "Jane Doe" ([] : Ledger)))).length = 1 := by
  refine ⟨prompt_for_donor_goodKey, ?_, ?_, add_donor_idem, ?_⟩
  · simp +decide [prompt_for_donor, stripLower, pyStrip, pyLower, normChars, pySplit,
      pySplitAux, pyTitle, pyTitleAux, joinSpace]
  · simp +decide [prompt_for_donor, stripLower, pyStrip, pyLower, normChars, pySplit,
      pySplitAux, pyTitle, pyTitleAux, joinSpace]
  · decide

/-- Witness for C4: the key produced from the input `jane doe` satisfies the normalisation invariant. -/
theorem donor_identity_normalized_witness : goodKey ("Jane Doe".toList) = true :=
  donor_identity_normalized.1 ["jane doe"] "Jane Doe" []
    (by simp +decide [prompt_for_donor, stripLower, pyStrip, pyLower, normChars, pySplit,
      pySplitAux, pyTitle, pyTitleAux, joinSpace])

/-- C5: a `min_total` or `max_total` bound equal to zero behaves exactly like an absent bound — the projection result is unchanged and no donor is excluded by a zero bound. -/
theorem projection_zero_bound (L : Ledger) (f : ℚ) :
    (∀ mx, projection L f (some 0) mx = projection L f none mx) ∧
    (∀ mn, projection L f mn (some 0) = projection L f mn none) ∧
    (∀ t mn, projExcluded t (some 0) mn = projExcluded t none mn) ∧
    (∀ t mn, projExcluded t mn (some 0) = projExcluded t mn none) := by
  refine ⟨fun mx => ?_, fun mn => ?_, fun t mn => ?_, fun t mn => ?_⟩ <;>
    simp [projection, projExcluded]

/-- C6: with no bounds set and factor 1, the projection equals the sum of all donor totals. -/
theorem projection_identity (L : Ledger) :
    projection L 1 none none = (L.map donorTotal).sum := by
  simp [projection, projExcluded]

/-- C7: the report rows are the donors sorted by the report ordering — Total Given descending with ties broken by donor name key ascending — and are a permutation of the ledger, so the row order is deterministic. -/
theorem report_sorted_perm (L : Ledger) :
    (create_report_rows L).Sorted reportRel ∧ List.Perm (create_report_rows L) L :=
  ⟨List.sorted_insertionSort reportRel L, List.perm_insertionSort reportRel L⟩

/-- C8: every value returned by `get_usr_input` is a member of `PROMPT_OPTS`, and the main loop's `opt_dict.get(choice)` always finds a handler for it. -/
theorem get_usr_input_valid :
    ∀ (inputs : List String) (v : ℤ),
      get_usr_input inputs = some v → v ∈ PROMPT_OPTS ∧ (opt_dict_get v).isSome = true := by
  intro inputs
  induction inputs with
  | nil => intro v h; simp [get_usr_input] at h
  | cons s rest ih =>
    intro v h
    rw [get_usr_input] at h
    cases hp : pyInt s.toList with
    | none => rw [hp] at h; exact ih v h
    | some n =>
      simp only [hp] at h
      by_cases hm : n ∈ PROMPT_OPTS
      · rw [if_pos hm] at h
        injection h with hnv
        subst hnv
        refine ⟨hm, ?_⟩
        have : n = 1 ∨ n = 2 ∨ n = 3 ∨ n = 4 ∨ n = 5 := by
          simpa [PROMPT_OPTS] using hm
        rcases this with rfl | rfl | rfl | rfl | rfl <;> decide
      · rw [if_neg hm] at h; exact ih v h

/-- Witness for C8 at the concrete input `3`. -/
theorem get_usr_input_valid_witness :
    (3 : ℤ) ∈ PROMPT_OPTS ∧ (opt_dict_get 3).isSome = true :=
  get_usr_input_valid ["3"] 3 (by
    simp +decide [get_usr_input, pyInt, signSplit, pyStrip, digitsVal, PROMPT_OPTS])

/-- C9: the thank-you flow is atomic on abort — quitting at the name prompt, or the amount prompt returning quit or `0.0`, makes `send_thank_you` return with no database operations; `add_donor` and `add_donation` are performed exactly when a donor name and a nonzero amount were both obtained, and then both are performed. -/
theorem send_thank_you_atomic (inputs : List String) :
    ((prompt_for_donor inputs).1 = DonorResult.quit → send_thank_you inputs = some []) ∧
    (∀ d rest, prompt_for_donor inputs = (DonorResult.name d, rest) →
       (prompt_for_float rest).1 = FloatResult.quit ∨ (prompt_for_float rest).1 = FloatResult.value 0 →
       send_thank_you inputs = some []) ∧
    (∀ d rest v, prompt_for_donor inputs = (DonorResult.name d, rest) →
       (prompt_for_float rest).1 = FloatResult.value v → v ≠ 0 →
       send_thank_you inputs = some [DbOp.addDonor d, DbOp.addDonation d v]) ∧
    (∀ ops, send_thank_you inputs = some ops →
       ops = [] ∨ ∃ d v, v ≠ 0 ∧ ops = [DbOp.addDonor d, DbOp.addDonation d v]) := by
  refine ⟨?_, ?_, ?_, send_thank_you_shape inputs⟩
  · intro hq
    unfold send_thank_you
    cases hd : prompt_for_donor inputs with
    | mk dres rest =>
      rw [hd] at hq
      simp only at hq
      subst hq
      simp only
  · intro d rest hd hf
    unfold send_thank_you
    rw [hd]
    simp only
    cases hff : prompt_for_float rest with
    | mk fres rest2 =>
      rw [hff] at hf
      simp only at hf
      rcases hf with hf | hf <;> subst hf <;> simp
  · intro d rest v hd hf hv
    unfold send_thank_you
    rw [hd]
    simp only
    cases hff : prompt_for_float rest with
    | mk fres rest2 =>
      rw [hff] at hf
      simp only at hf
      subst hf
      simp only
      rw [if_neg hv]

/-- Witness for C9 at the concrete run entering `bob` then `5`. -/
theorem send_thank_you_atomic_witness :
    send_thank_you ["bob", "5"] = some [DbOp.addDonor "Bob", DbOp.addDonation "Bob" 5] :=
  (send_thank_you_atomic ["bob", "5"]).2.2.1 "Bob" ["5"] 5
    (by simp +decide [prompt_for_donor, stripLower, pyStrip, pyLower, normChars, pySplit,
      pySplitAux, pyTitle, pyTitleAux, joinSpace])
    (by simp +decide [prompt_for_float, stripLower, pyStrip, pyLower, pyFloat, signSplit,
      mantissa, digitsVal])
    (by norm_num)

/-- C10: in both prompts, any input whose stripped lower-cased form starts with `q` quits and returns Python `None`; consequently no donor key returned by `prompt_for_donor` can start with the letter `Q`. -/
theorem q_inputs_quit :
    (∀ (s : String) (rest : List String), (stripLower s).head? = some 'q' →
        prompt_for_donor (s :: rest) = (DonorResult.quit, rest) ∧
        prompt_for_float (s :: rest) = (FloatResult.quit, rest)) ∧
    (∀ (inputs : List String) (d : String) (rest : List String),
        prompt_for_donor inputs = (DonorResult.name d, rest) → d.toList.head? ≠ some 'Q') := by
  refine ⟨fun s rest hq => ⟨?_, ?_⟩, prompt_for_donor_no_Q⟩
  · rw [prompt_for_donor, if_pos hq]
  · rw [prompt_for_float, if_pos hq]

/-- Witness for C10 at the concrete input `quincy`, treated as quit by both prompts. -/
theorem q_inputs_quit_witness :
    prompt_for_donor ["quincy"] = (DonorResult.quit, []) ∧
    prompt_for_float ["quincy"] = (FloatResult.quit, []) :=
  q_inputs_quit.1 "quincy" [] (by decide)
